import Mathlib

/-!
Verification development for the web-pjs reactive templating engine.

The definitions below are a shallow embedding of the JavaScript source
(`src/unnamed/part_000`): object identities are modelled as natural numbers,
JavaScript `Map`s as association lists, thrown exceptions as `Option`/flag
results, and the host console as an explicit log.  Each definition is a
transcription of one function of the source; the theorems settle the spec's
claims about those functions.
-/

namespace WebPJS

/-- JavaScript property keys are either strings or symbols. -/
inductive PropKey where
  | str (s : String)
  | sym (id : Nat)
deriving DecidableEq, Repr

/-- Model of JavaScript values as they occur in the claims under study:
numbers (modelled as integers; none of the settled claims depends on
non-integral or NaN arithmetic on data values), strings, booleans,
`undefined`, `null`, and object references identified by a numeric id.
Lean equality on this type models JavaScript strict equality `===`
(objects compare by reference id). -/
inductive JSVal where
  | num (n : Int)
  | str (s : String)
  | boolean (b : Bool)
  | undef
  | nullv
  | obj (id : Nat)
deriving DecidableEq, Repr

/-- JavaScript string conversion of a value, as used when a value is spliced
into a template string by `String.prototype.replace`. -/
def jsValToString : JSVal → String
  | .num n => toString n
  | .str s => s
  | .boolean b => if b then "true" else "false"
  | .undef => "undefined"
  | .nullv => "null"
  | .obj _ => "[object Object]"

/-- Association-list lookup, modelling `Map.prototype.get` (returning
`undefined`, i.e. `none`, when the key is absent). -/
def assocLookup {α β : Type} [DecidableEq α] : List (α × β) → α → Option β
  | [], _ => none
  | (k, v) :: rest, key => if key = k then some v else assocLookup rest key

/-- Association-list update, modelling `Map.prototype.set`: an existing key
keeps its position (JavaScript `Map` insertion order), a new key is appended
at the end. -/
def assocSet {α β : Type} [DecidableEq α] : List (α × β) → α → β → List (α × β)
  | [], key, v => [(key, v)]
  | (k, w) :: rest, key, v =>
      if key = k then (key, v) :: rest else (k, w) :: assocSet rest key v

/-! ## EvalStack (capture window), from `class EvalStack` in part_000

The static fields `EvalStack.stack` / `EvalStack.done` form the single
process-wide recording window.  The `log` field models the host console,
which these two methods never write to. -/

/-- State of the process-wide capture window: `done = false` means a window
is open; `stack` is the sequence of `(object, key)` capture records in access
order; `log` models console output (never touched by `begin`/`end`). -/
structure EvalStackSt where
  done : Bool
  stack : List (Nat × PropKey)
  log : List String
deriving DecidableEq, Repr

/-- Transcription of `EvalStack.begin`: unconditionally sets `done = false`
and resets `stack` to `[]`.  There is no occupancy check and no console
call. -/
def evalStackBegin (s : EvalStackSt) : EvalStackSt :=
  { s with done := false, stack := [] }

/-- Transcription of `EvalStack.end`: sets `done = true`, returns the
captured record, and clears it. -/
def evalStackEnd (s : EvalStackSt) : EvalStackSt × List (Nat × PropKey) :=
  ({ s with done := true, stack := [] }, s.stack)

/-! ## Manager: object wrapping (`ensureManagedObject`, `manage`,
`getUnmanaged`), from part_000 lines 569-637 and 331-337.

Raw objects and proxies are both identified by naturals.  A `Proxy` created
by the host is a brand-new object distinct from every existing one; this is
modelled by a `nextId` allocator, with well-formedness stating that every
identity the state knows about is below `nextId`. -/

structure ManagerState where
  /-- `managedValues : Map<raw, proxy>` -/
  managedValues : List (Nat × Nat)
  /-- `managedProxies : Map<proxy, raw>` -/
  managedProxies : List (Nat × Nat)
  /-- `objCallbacks : Map<raw, callback list>` (callbacks as identities) -/
  objCallbacks : List (Nat × List Nat)
  /-- allocator for fresh proxy identities -/
  nextId : Nat
deriving DecidableEq, Repr

/-- Transcription of `Manager.ensureManagedObject`: if the argument is a
known proxy, return it; otherwise, if no wrapper exists yet, seed the
object-wide callback list when `inheritedCallbacks` is non-empty, allocate a
fresh proxy and record the pair in both maps; finally return the wrapper
stored in `managedValues`. -/
def ensureManagedObject (s : ManagerState) (obj : Nat) (inheritedCallbacks : List Nat) :
    ManagerState × Nat :=
  match assocLookup s.managedProxies obj with
  | some _ => (s, obj)
  | none =>
    match assocLookup s.managedValues obj with
    | some p => (s, p)
    | none =>
      let s1 := if inheritedCallbacks.length > 0 then
          { s with objCallbacks := assocSet s.objCallbacks obj inheritedCallbacks }
        else s
      let p := s.nextId
      ({ s1 with
          managedValues := assocSet s1.managedValues obj p,
          managedProxies := assocSet s1.managedProxies p obj,
          nextId := s.nextId + 1 }, p)

/-- Transcription of `Manager.manage`: `ensureManagedObject` with no
inherited callbacks. -/
def manage (s : ManagerState) (obj : Nat) : ManagerState × Nat :=
  ensureManagedObject s obj []

/-- Transcription of `Manager.getUnmanaged`: return the original object of a
known wrapper, otherwise return the argument unchanged. -/
def getUnmanaged (s : ManagerState) (obj : Nat) : Nat :=
  match assocLookup s.managedProxies obj with
  | some raw => raw
  | none => obj

/-- Well-formedness of the manager's identity maps: `managedValues` and
`managedProxies` are mutually inverse, and every identity recorded in them
is below the allocator's `nextId` (so a host-allocated proxy is distinct
from everything the state knows about). -/
def ManagerWF (s : ManagerState) : Prop :=
  (∀ r p, assocLookup s.managedValues r = some p → assocLookup s.managedProxies p = some r) ∧
  (∀ p r, assocLookup s.managedProxies p = some r → assocLookup s.managedValues r = some p) ∧
  (∀ r p, assocLookup s.managedValues r = some p → r < s.nextId ∧ p < s.nextId) ∧
  (∀ p r, assocLookup s.managedProxies p = some r → p < s.nextId ∧ r < s.nextId)

/-! ## Manager.registerCallback and the returned disposers, part_000 645-681 -/

/-- JavaScript `Array.prototype.indexOf` over a callback list: the index of
the first occurrence, or `-1` when absent. -/
def jsIndexOf : List Nat → Nat → Int
  | [], _ => -1
  | c :: rest, cb =>
      if c = cb then 0
      else
        let r := jsIndexOf rest cb
        if r < 0 then -1 else r + 1

/-- Transcription of the closure returned by `registerCallback`:
`indexOf` the callback; if absent do nothing, otherwise `splice` out the
found index. -/
def disposeCallback (l : List Nat) (cb : Nat) : List Nat :=
  let i := jsIndexOf l cb
  if i < 0 then l else l.eraseIdx i.toNat

/-- The two listener tables of the manager used by `registerCallback`:
object-wide callbacks and per-(object, key) callbacks. -/
structure CallbackMaps where
  objCallbacks : List (Nat × List Nat)
  namedObjCallbacks : List (Nat × List (PropKey × List Nat))
deriving DecidableEq, Repr

/-- A disposer returned by `registerCallback` closes over the list it must
splice from; since the per-key arrays are created once and only mutated in
place, the closed-over array is exactly the list currently stored for that
object (and key). -/
inductive CBDisposer where
  | named (obj : Nat) (key : PropKey) (cb : Nat)
  | plain (obj : Nat) (cb : Nat)
deriving DecidableEq, Repr

/-- Transcription of `Manager.registerCallback`: with a key, push onto the
(lazily created) per-object per-key list; without a key, push onto the
(lazily created) object-wide list.  Returns the updated maps and the
disposer. -/
def registerCallback (m : CallbackMaps) (obj : Nat) (cb : Nat) (key : Option PropKey) :
    CallbackMaps × CBDisposer :=
  match key with
  | some k =>
      let named := (assocLookup m.namedObjCallbacks obj).getD []
      let perKey := (assocLookup named k).getD []
      let named1 := assocSet named k (perKey ++ [cb])
      ({ m with namedObjCallbacks := assocSet m.namedObjCallbacks obj named1 },
       .named obj k cb)
  | none =>
      let l := (assocLookup m.objCallbacks obj).getD []
      ({ m with objCallbacks := assocSet m.objCallbacks obj (l ++ [cb]) },
       .plain obj cb)

/-- Running a disposer against the current state: splice the first occurrence
of the callback (by identity) out of the list it was registered on. -/
def runDisposer (m : CallbackMaps) (d : CBDisposer) : CallbackMaps :=
  match d with
  | .named obj k cb =>
      let named := (assocLookup m.namedObjCallbacks obj).getD []
      let perKey := (assocLookup named k).getD []
      { m with namedObjCallbacks :=
          assocSet m.namedObjCallbacks obj (assocSet named k (disposeCallback perKey cb)) }
  | .plain obj cb =>
      let l := (assocLookup m.objCallbacks obj).getD []
      { m with objCallbacks := assocSet m.objCallbacks obj (disposeCallback l cb) }

/-! ## Manager.triggerChange and the proxy set trap, part_000 609-622 and 688-696 -/

/-- State visible to a property-set notification: the target object's
property table and the log of listeners invoked so far (in invocation
order). -/
structure NotifySt where
  props : List (PropKey × JSVal)
  invoked : List Nat
deriving DecidableEq, Repr

/-- Run a callback list in order; `throws` tells which callbacks raise.
Both loops of the source (`for(let callback of callbacks)`) have no
try/catch, so the first raising callback terminates the loop and the
exception escapes (second component `true`).  A raising callback still
counts as invoked. -/
def runCallbacks (throws : Nat → Bool) : List Nat → NotifySt → NotifySt × Bool
  | [], s => (s, false)
  | c :: rest, s =>
      let s1 := { s with invoked := s.invoked ++ [c] }
      if throws c then (s1, true) else runCallbacks throws rest s1

/-- Transcription of `Manager.triggerChange`: look up the object-wide
callback list (absent means return), `flat(100)` it, and invoke each
element in order (no exception isolation). -/
def triggerChange (throws : Nat → Bool) (objCbs : Option (List (List Nat)))
    (s : NotifySt) : NotifySt × Bool :=
  match objCbs with
  | none => (s, false)
  | some cbs => runCallbacks throws cbs.flatten s

/-- Transcription of the proxy `set` trap: `Reflect.set` first (the raw
mutation), then the per-key callbacks for this property if any (plain loop,
no try/catch — an escaping exception skips everything after it), then
`triggerChange` for the object-wide callbacks. -/
def setTrap (throws : Nat → Bool) (named : Option (List Nat))
    (objCbs : Option (List (List Nat))) (prop : PropKey) (value : JSVal)
    (s : NotifySt) : NotifySt × Bool :=
  let s0 := { s with props := assocSet s.props prop value }
  let r1 :=
    match named with
    | none => (s0, false)
    | some cbs => runCallbacks throws cbs s0
  if r1.2 then r1 else triggerChange throws objCbs r1.1

/-- The prefix of a callback sequence that actually runs: everything up to
and including the first raising callback. -/
def takeThrough (throws : Nat → Bool) : List Nat → List Nat
  | [] => []
  | c :: rest => if throws c then [c] else c :: takeThrough throws rest

/-! ## Helper lemmas on association lists -/

theorem assocLookup_assocSet_self {α β : Type} [DecidableEq α]
    (l : List (α × β)) (k : α) (v : β) :
    assocLookup (assocSet l k v) k = some v := by
  induction l with
  | nil => simp [assocSet, assocLookup]
  | cons hd tl ih =>
      obtain ⟨k1, v1⟩ := hd
      by_cases h : k = k1 <;> simp [assocSet, assocLookup, h, ih]

theorem assocLookup_assocSet_ne {α β : Type} [DecidableEq α]
    (l : List (α × β)) (k k2 : α) (v : β) (h : k2 ≠ k) :
    assocLookup (assocSet l k v) k2 = assocLookup l k2 := by
  induction l with
  | nil => simp [assocSet, assocLookup, h]
  | cons hd tl ih =>
      obtain ⟨k1, v1⟩ := hd
      by_cases h1 : k = k1
      · subst h1
        simp [assocSet, assocLookup, h]
      · by_cases h2 : k2 = k1 <;> simp [assocSet, assocLookup, h1, h2, ih]

/-! ## Claim C2: idempotent wrapping and unwrapping -/

/-- C2: for every raw object `o` known to the allocator and not itself a
wrapper, `manage (manage o) = manage o` (same wrapper, state unchanged),
`getUnmanaged (manage o) = o`, and `getUnmanaged` of any non-wrapper value
is that value unchanged. -/
theorem claim_C2_confirmed (s : ManagerState) (o : Nat)
    (hwf : ManagerWF s) (_ho : o < s.nextId)
    (hraw : assocLookup s.managedProxies o = none) :
    manage (manage s o).1 (manage s o).2 = manage s o ∧
    getUnmanaged (manage s o).1 (manage s o).2 = o ∧
    (∀ v, assocLookup s.managedProxies v = none → getUnmanaged s v = v) := by
  refine ⟨?_, ?_, ?_⟩
  · show manage (manage s o).1 (manage s o).2 = manage s o
    unfold manage ensureManagedObject
    rw [hraw]
    cases hv : assocLookup s.managedValues o with
    | some p =>
        have hp : assocLookup s.managedProxies p = some o := hwf.1 o p hv
        simp [hp]
    | none =>
        simp [assocLookup_assocSet_self]
  · unfold manage ensureManagedObject getUnmanaged
    rw [hraw]
    cases hv : assocLookup s.managedValues o with
    | some p =>
        have hp : assocLookup s.managedProxies p = some o := hwf.1 o p hv
        simp [hp]
    | none =>
        simp [assocLookup_assocSet_self]
  · intro v hv
    unfold getUnmanaged
    rw [hv]

/-- C2 witness: the properties instantiated at the empty manager state and
the raw object `0`. -/
theorem claim_C2_witness :
    manage (manage ⟨[], [], [], 1⟩ 0).1 (manage ⟨[], [], [], 1⟩ 0).2 =
      manage ⟨[], [], [], 1⟩ 0 ∧
    getUnmanaged (manage ⟨[], [], [], 1⟩ 0).1 (manage ⟨[], [], [], 1⟩ 0).2 = 0 := by
  have hwf : ManagerWF ⟨[], [], [], 1⟩ := by
    refine ⟨?_, ?_, ?_, ?_⟩ <;> intro a b h <;> simp [assocLookup] at h
  have h := claim_C2_confirmed ⟨[], [], [], 1⟩ 0 hwf (by decide) rfl
  exact ⟨h.1, h.2.1⟩

/-! ## Claim C8: capture window begin/end -/

/-- C8 counterexample: calling `begin` while a window is already open
(`done = false` with a pending capture record) emits no console output at
all — the log stays empty — so the claimed "fails loudly — logs" behavior
does not happen (the pending record is silently cleared instead). -/
theorem claim_C8_counterexample :
    (evalStackBegin ⟨false, [(0, PropKey.str "k")], []⟩).log = [] ∧
    (evalStackBegin ⟨false, [(0, PropKey.str "k")], []⟩).stack = [] :=
  ⟨rfl, rfl⟩

/-- C8 amended: `begin` opens the single capture window and silently resets
the pending record (no log entry is emitted, even when a window is already
open); `end` closes the window, returns the captured sequence in access
order, and clears it, so a second `end` with no intervening `begin` returns
the empty sequence. -/
theorem claim_C8_amended (s : EvalStackSt) :
    evalStackBegin s = ⟨false, [], s.log⟩ ∧
    (evalStackEnd s).1 = ⟨true, [], s.log⟩ ∧
    (evalStackEnd s).2 = s.stack ∧
    (evalStackEnd (evalStackEnd s).1).2 = [] :=
  ⟨rfl, rfl, rfl, rfl⟩

/-! ## Claim C10: disposers returned by registerCallback -/

theorem disposeCallback_eq_erase (l : List Nat) (cb : Nat) :
    disposeCallback l cb = l.erase cb := by
  induction l with
  | nil => rfl
  | cons c rest ih =>
      by_cases h : c = cb
      · subst h
        simp [disposeCallback, jsIndexOf, List.erase_cons_head]
      · have hne : (c == cb) = false := by simp [h]
        rw [List.erase_cons, hne]
        by_cases hr : jsIndexOf rest cb < 0
        · have hrest : disposeCallback rest cb = rest := by
            simp [disposeCallback, hr]
          have : rest.erase cb = rest := by rw [← ih, hrest]
          simp only [disposeCallback, jsIndexOf, h, if_false, hr, if_true, this]
          simp
        · push_neg at hr
          obtain ⟨n, hn⟩ := Int.eq_ofNat_of_zero_le hr
          have hrest : disposeCallback rest cb = rest.eraseIdx n := by
            simp [disposeCallback, hn]
          simp only [disposeCallback, jsIndexOf, h, if_false, hn]
          rw [if_neg (by omega : ¬((n : Int) < 0))]
          rw [if_neg (by omega : ¬((n : Int) + 1 < 0))]
          rw [show ((n : Int) + 1).toNat = n + 1 by omega, List.eraseIdx_cons_succ]
          rw [← ih, hrest]
          simp

/-- C10 counterexample: registering the identical callback (identity `7`)
twice on the same `(object, key)` and invoking the *first* registration's
disposer twice is not a no-op — the second invocation removes the sibling
registration as well, because the disposer searches by callback identity. -/
theorem claim_C10_counterexample :
    (let m0 : CallbackMaps := ⟨[], []⟩
     let r1 := registerCallback m0 5 7 (some (PropKey.str "x"))
     let r2 := registerCallback r1.1 5 7 (some (PropKey.str "x"))
     let m3 := runDisposer r2.1 r1.2
     runDisposer m3 r1.2 ≠ m3) := by decide

/-- C10 amended: a disposer removes the *first* occurrence (by identity) of
its callback from the corresponding listener list; when the callback is not
present the call is a no-op; removal never changes the multiplicity of any
other callback and decrements the disposed callback's multiplicity by
exactly one; when the callback is registered exactly once, invoking the
disposer a second time is a no-op; and a disposer for one object never
touches the listener lists of a different object.  (When the identical
callback has several registrations on the same list, a second invocation of
the same disposer removes a sibling registration — see the
counterexample.) -/
theorem claim_C10_amended :
    (∀ (l : List Nat) (cb : Nat), disposeCallback l cb = l.erase cb) ∧
    (∀ (l : List Nat) (cb : Nat), cb ∉ l → disposeCallback l cb = l) ∧
    (∀ (l : List Nat) (cb c : Nat), c ≠ cb → (disposeCallback l cb).count c = l.count c) ∧
    (∀ (l : List Nat) (cb : Nat), cb ∈ l →
        (disposeCallback l cb).count cb + 1 = l.count cb) ∧
    (∀ (l : List Nat) (cb : Nat), l.count cb = 1 →
        disposeCallback (disposeCallback l cb) cb = disposeCallback l cb) ∧
    (∀ (m : CallbackMaps) (obj : Nat) (k : PropKey) (cb obj2 : Nat), obj2 ≠ obj →
        assocLookup (runDisposer m (.named obj k cb)).namedObjCallbacks obj2 =
          assocLookup m.namedObjCallbacks obj2) := by
  refine ⟨disposeCallback_eq_erase, ?_, ?_, ?_, ?_, ?_⟩
  · intro l cb h
    rw [disposeCallback_eq_erase, List.erase_of_not_mem h]
  · intro l cb c h
    rw [disposeCallback_eq_erase, List.count_erase_of_ne h]
  · intro l cb h
    rw [disposeCallback_eq_erase, List.count_erase_self]
    have : 1 ≤ l.count cb := List.one_le_count_iff.mpr h
    omega
  · intro l cb h
    rw [disposeCallback_eq_erase, disposeCallback_eq_erase]
    have h0 : (l.erase cb).count cb = 0 := by
      rw [List.count_erase_self, h]
    exact List.erase_of_not_mem (by simpa using List.count_eq_zero.mp h0)
  · intro m obj k cb obj2 h
    simp only [runDisposer]
    rw [assocLookup_assocSet_ne _ _ _ _ h]

/-- C10 witness: the hypothesis-bearing conjuncts of the amended theorem
instantiated at concrete lists. -/
theorem claim_C10_witness :
    disposeCallback [3, 7] 9 = [3, 7] ∧
    (disposeCallback [3, 7] 7).count 3 = 1 ∧
    (disposeCallback [3, 7] 7).count 7 + 1 = 1 ∧
    disposeCallback (disposeCallback [3, 7] 7) 7 = disposeCallback [3, 7] 7 ∧
    assocLookup (runDisposer ⟨[], [(5, [(PropKey.str "x", [7])])]⟩
        (.named 4 (PropKey.str "x") 7)).namedObjCallbacks 5 =
      assocLookup (⟨[], [(5, [(PropKey.str "x", [7])])]⟩ : CallbackMaps).namedObjCallbacks 5 :=
  ⟨claim_C10_amended.2.1 [3, 7] 9 (by decide),
   claim_C10_amended.2.2.1 [3, 7] 7 3 (by decide),
   claim_C10_amended.2.2.2.1 [3, 7] 7 (by decide),
   claim_C10_amended.2.2.2.2.1 [3, 7] 7 (by decide),
   claim_C10_amended.2.2.2.2.2 ⟨[], [(5, [(PropKey.str "x", [7])])]⟩ 4
     (PropKey.str "x") 7 5 (by decide)⟩

/-! ## Claim C7: listener exceptions during change notification -/

theorem runCallbacks_spec (throws : Nat → Bool) (l : List Nat) (s : NotifySt) :
    (runCallbacks throws l s).1.invoked = s.invoked ++ takeThrough throws l ∧
    (runCallbacks throws l s).1.props = s.props ∧
    (runCallbacks throws l s).2 = l.any throws := by
  induction l generalizing s with
  | nil => simp [runCallbacks, takeThrough]
  | cons c rest ih =>
      by_cases h : throws c
      · simp [runCallbacks, takeThrough, h]
      · have := ih { s with invoked := s.invoked ++ [c] }
        simp only [runCallbacks, takeThrough, h, if_false, Bool.false_eq_true] at this ⊢
        refine ⟨?_, this.2.1, by simp [this.2.2, h]⟩
        rw [this.1]
        simp

theorem runCallbacks_append (throws : Nat → Bool) (a b : List Nat) (s : NotifySt) :
    runCallbacks throws (a ++ b) s =
      (let r := runCallbacks throws a s
       if r.2 then r else runCallbacks throws b r.1) := by
  induction a generalizing s with
  | nil => simp [runCallbacks]
  | cons c rest ih =>
      by_cases h : throws c <;> simp [runCallbacks, h, ih]

theorem setTrap_runCallbacks (throws : Nat → Bool) (nl : List Nat)
    (ol : List (List Nat)) (prop : PropKey) (value : JSVal) (s : NotifySt) :
    setTrap throws (some nl) (some ol) prop value s =
      runCallbacks throws (nl ++ ol.flatten)
        { s with props := assocSet s.props prop value } := by
  rw [runCallbacks_append]
  rfl

/-- C7 counterexample: with key-specific listeners `[0, 1]` (listener `0`
throws) and an object-wide listener `2`, a property set invokes only
listener `0`: the remaining key-specific listener `1` and the object-wide
listener `2` never run, refuting "every subsequent listener in registration
order still runs".  The mutation itself is still applied. -/
theorem claim_C7_counterexample :
    (setTrap (fun c => c == 0) (some [0, 1]) (some [[2]]) (.str "k") (.num 5)
        ⟨[], []⟩).1.invoked = [0] ∧
    (1 : Nat) ∉ (setTrap (fun c => c == 0) (some [0, 1]) (some [[2]]) (.str "k") (.num 5)
        ⟨[], []⟩).1.invoked ∧
    assocLookup (setTrap (fun c => c == 0) (some [0, 1]) (some [[2]]) (.str "k")
        (.num 5) ⟨[], []⟩).1.props (.str "k") = some (.num 5) := by
  refine ⟨by decide, by decide, by decide⟩

/-- C7 amended: the raw mutation is applied before any listener runs and is
never undone; the listeners that actually run are exactly the prefix of the
registration-ordered sequence (key-specific first, then object-wide) up to
and including the first listener that throws; an exception escapes the set
trap exactly when some listener in that sequence throws.  In particular a
throwing listener prevents every later listener from running. -/
theorem claim_C7_amended (throws : Nat → Bool) (named : Option (List Nat))
    (objCbs : Option (List (List Nat))) (prop : PropKey) (value : JSVal)
    (s : NotifySt) :
    (setTrap throws named objCbs prop value s).1.props = assocSet s.props prop value ∧
    (setTrap throws named objCbs prop value s).1.invoked =
      s.invoked ++ takeThrough throws ((named.getD []) ++ (objCbs.getD []).flatten) ∧
    (setTrap throws named objCbs prop value s).2 =
      ((named.getD []) ++ (objCbs.getD []).flatten).any throws := by
  have hnorm : setTrap throws named objCbs prop value s =
      runCallbacks throws ((named.getD []) ++ (objCbs.getD []).flatten)
        { s with props := assocSet s.props prop value } := by
    cases named <;> cases objCbs <;>
      simp only [Option.getD_some, Option.getD_none] <;>
      rw [← setTrap_runCallbacks] <;> rfl
  rw [hnorm]
  have h := runCallbacks_spec throws ((named.getD []) ++ (objCbs.getD []).flatten)
    { s with props := assocSet s.props prop value }
  exact ⟨h.2.1, h.1, h.2.2⟩

/-! ## The p:for container listener, part_000 lines 877-981

Instance records are kept in `Map<number, {elements, delete}>`; the listener
registered on the container handles `length` writes and index writes.  The
model identifies each instance record by a numeric id allocated at
`instantiate` time and logs `delete()` calls in `destroyed`. -/

/-- JavaScript numbers as they arise from `parseFloat` applied to a property
key: `NaN` or a rational value. -/
inductive JNum where
  | nan
  | val (q : ℚ)
deriving DecidableEq, Repr

/-- JavaScript `index < 0` on a number: false for `NaN`. -/
def jnumLtZero : JNum → Bool
  | .nan => false
  | .val q => q < 0

/-- JavaScript loose equality `index == null` where `index` is a number:
false for every number, including `NaN` (only `undefined` is loosely equal
to `null`).  `parseFloat` always returns a number, so this guard in the
source never fires. -/
def jnumEqNull : JNum → Bool := fun _ => false

/-- JavaScript `i > newval` for a loop counter `i` and a written value
`newval`: false when `newval` is `NaN`. -/
def natGtJnum (i : Nat) : JNum → Bool
  | .nan => false
  | .val q => q < (i : ℚ)

def takeDigits : List Char → List Char × List Char
  | [] => ([], [])
  | c :: rest =>
      if c.isDigit then
        let (ds, r) := takeDigits rest
        (c :: ds, r)
      else ([], c :: rest)

def digitsToNat (l : List Char) : Nat :=
  l.foldl (fun acc c => acc * 10 + (c.toNat - '0'.toNat)) 0

/-- Modelled from the host builtin `parseFloat`, restricted to plain decimal
notation (optional leading whitespace, optional sign, digits with an
optional fractional part, trailing junk ignored; exponents and `Infinity`
are outside the modelled fragment).  An input with no digits yields
`NaN`. -/
def parseFloatChars (l : List Char) : JNum :=
  let l1 := l.dropWhile (fun c => c = ' ' || c = '\t' || c = '\n' || c = '\r')
  let signed : Bool × List Char :=
    match l1 with
    | '-' :: rest => (true, rest)
    | '+' :: rest => (false, rest)
    | _ => (false, l1)
  let ip := takeDigits signed.2
  let fracDs : List Char :=
    match ip.2 with
    | '.' :: rest => (takeDigits rest).1
    | _ => []
  if ip.1.isEmpty && fracDs.isEmpty then JNum.nan
  else
    let mag : ℚ :=
      if fracDs.isEmpty then (digitsToNat ip.1 : ℚ)
      else (digitsToNat ip.1 : ℚ) + (digitsToNat fracDs : ℚ) / ((10 : ℚ) ^ fracDs.length)
    JNum.val (if signed.1 then -mag else mag)

def parseFloatStr (s : String) : JNum := parseFloatChars s.data

/-- `parseFloat(property)` inside the listener's try/catch: converting a
symbol to a string throws a `TypeError` (caught by the listener, which then
returns); a string key parses as a number, possibly `NaN` — `parseFloat`
itself never throws on strings. -/
def parseFloatKey : PropKey → Except Unit JNum
  | .sym _ => .error ()
  | .str s => .ok (parseFloatStr s)

/-- Association-list deletion, modelling `Map.prototype.delete`. -/
def assocErase {α β : Type} [DecidableEq α] : List (α × β) → α → List (α × β)
  | [], _ => []
  | (k, v) :: rest, key => if key = k then rest else (k, v) :: assocErase rest key

/-- State of one p:for directive: the `instances` map (key → instance id),
the log of instance ids whose `delete()` ran (in call order), and the
allocator for instance ids. -/
structure ForSt where
  instances : List (JNum × Nat)
  destroyed : List Nat
  nextInst : Nat
deriving DecidableEq, Repr

/-- Transcription of `instantiate(item, index)` restricted to its effect on
the instance map: if an instance exists at `index`, call its `delete()` and
remove the map entry; then build the clones and store a fresh instance
record at `index`. -/
def instantiate (s : ForSt) (index : JNum) : ForSt :=
  let s1 :=
    match assocLookup s.instances index with
    | some oldId =>
        { s with destroyed := s.destroyed ++ [oldId],
                 instances := assocErase s.instances index }
    | none => s
  { s1 with instances := assocSet s1.instances index s1.nextInst,
            nextInst := s1.nextInst + 1 }

/-- Transcription of the `length` branch's loop
`for(let i=instances.size; i>newval && i>=0; i--) instances.get(i-1)?.delete()`,
returning the ids of the instances whose `delete()` ran, in call order.  At
JavaScript `i = 0` the guarded body looks up key `-1` (optional chaining
makes the missing entry a no-op) and the following decrement ends the
loop. -/
def lengthLoopGo (inst : List (JNum × Nat)) (newval : JNum) : Nat → List Nat
  | 0 =>
      if natGtJnum 0 newval then (assocLookup inst (JNum.val (-1))).toList
      else []
  | i + 1 =>
      if natGtJnum (i + 1) newval then
        (assocLookup inst (JNum.val (i : ℚ))).toList ++ lengthLoopGo inst newval i
      else []

/-- The `length` branch of the container listener: run the deletion loop
starting at `instances.size`.  The source's `delete()` closures remove the
DOM nodes and listeners but do not remove the map entries, so `instances`
is unchanged. -/
def lengthBranch (s : ForSt) (newval : JNum) : ForSt :=
  { s with destroyed := s.destroyed ++ lengthLoopGo s.instances newval s.instances.length }

/-- Transcription of the callback registered on the p:for container
(part_000 lines 951-974): the `length` branch, then the permissive index
parse with its `index == null || index < 0` guard, then `instantiate`. -/
def containerListener (s : ForSt) (property : PropKey) (newval : JNum) : ForSt :=
  if property = .str "length" then lengthBranch s newval
  else
    match parseFloatKey property with
    | .error _ => s
    | .ok index =>
        if jnumEqNull index || jnumLtZero index then s
        else instantiate s index

/-- The instance map of a fully reconciled collection of `n` items: live
instances at indices `0 .. n-1`, the instance id at index `i` being `i`. -/
def stdInstances (n : Nat) : List (JNum × Nat) :=
  (List.range n).map (fun (i : Nat) => (JNum.val (i : ℚ), i))

theorem assocLookup_append_some {α β : Type} [DecidableEq α] {a : List (α × β)}
    (b : List (α × β)) (v : β) {k : α} (h : assocLookup a k = some v) :
    assocLookup (a ++ b) k = some v := by
  induction a with
  | nil => simp [assocLookup] at h
  | cons hd tl ih =>
      obtain ⟨k1, v1⟩ := hd
      by_cases hkk : k = k1
      · subst hkk
        have h1 : v1 = v := by simpa [assocLookup] using h
        simp [assocLookup, h1]
      · simp only [assocLookup, if_neg hkk] at h
        simp only [List.cons_append, assocLookup, if_neg hkk]
        exact ih h

theorem assocLookup_append_none {α β : Type} [DecidableEq α] {a : List (α × β)}
    (b : List (α × β)) {k : α} (h : assocLookup a k = none) :
    assocLookup (a ++ b) k = assocLookup b k := by
  induction a with
  | nil => simp
  | cons hd tl ih =>
      obtain ⟨k1, v1⟩ := hd
      by_cases hkk : k = k1
      · subst hkk
        simp [assocLookup] at h
      · simp only [assocLookup, if_neg hkk] at h
        simp only [List.cons_append, assocLookup, if_neg hkk]
        exact ih h

theorem stdInstances_succ (n : Nat) :
    stdInstances (n + 1) = stdInstances n ++ [(JNum.val (n : ℚ), n)] := by
  simp [stdInstances, List.range_succ]

theorem stdInstances_length (n : Nat) : (stdInstances n).length = n := by
  simp [stdInstances]

theorem stdInstances_lookup (n i : Nat) :
    assocLookup (stdInstances n) (JNum.val (i : ℚ)) = if i < n then some i else none := by
  induction n with
  | zero => simp [stdInstances, assocLookup]
  | succ n ih =>
      rw [stdInstances_succ]
      by_cases h : i < n
      · rw [assocLookup_append_some _ i (by rw [ih]; simp [h])]
        simp [Nat.lt_succ_of_lt h]
      · rw [assocLookup_append_none _ (by rw [ih]; simp [h])]
        by_cases he : i = n
        · subst he
          simp [assocLookup, Nat.lt_succ_self]
        · have h2 : ¬ i < n + 1 := by omega
          have hk : ¬ (JNum.val (i : ℚ) = JNum.val (n : ℚ)) := by
            simp only [JNum.val.injEq, Nat.cast_inj]
            exact he
          simp [assocLookup, hk, h2]

theorem stdInstances_lookup_negOne (n : Nat) :
    assocLookup (stdInstances n) (JNum.val (-1)) = none := by
  induction n with
  | zero => simp [stdInstances, assocLookup]
  | succ n ih =>
      rw [stdInstances_succ, assocLookup_append_none _ ih]
      have hk : ¬ ((JNum.val (-1) : JNum) = JNum.val (n : ℚ)) := by
        simp only [JNum.val.injEq]
        intro hcontra
        have h0 : (0 : ℚ) ≤ (n : ℚ) := Nat.cast_nonneg n
        rw [← hcontra] at h0
        norm_num at h0
      simp [assocLookup, hk]

theorem lengthLoopGo_mem (n L idx : Nat) (i : Nat) :
    idx ∈ lengthLoopGo (stdInstances n) (JNum.val (L : ℚ)) i ↔
      (L ≤ idx ∧ idx < i ∧ idx < n) := by
  induction i with
  | zero =>
      have hc : natGtJnum 0 (JNum.val (L : ℚ)) = false := by
        simp only [natGtJnum, decide_eq_false_iff_not, not_lt, Nat.cast_zero]
        exact_mod_cast L.zero_le
      rw [show lengthLoopGo (stdInstances n) (JNum.val (L : ℚ)) 0 = [] from by
        simp [lengthLoopGo, hc]]
      simp only [List.not_mem_nil, false_iff]
      omega
  | succ i ih =>
      by_cases h : L ≤ i
      · have hc : natGtJnum (i + 1) (JNum.val (L : ℚ)) = true := by
          simp only [natGtJnum, decide_eq_true_eq]
          exact_mod_cast Nat.lt_succ_of_le h
        rw [show lengthLoopGo (stdInstances n) (JNum.val (L : ℚ)) (i + 1) =
              (assocLookup (stdInstances n) (JNum.val (i : ℚ))).toList ++
                lengthLoopGo (stdInstances n) (JNum.val (L : ℚ)) i from by
          simp [lengthLoopGo, hc]]
        rw [stdInstances_lookup]
        by_cases hn : i < n
        · simp only [hn, if_true, List.mem_append, Option.toList_some,
            List.mem_singleton, ih]
          omega
        · simp only [hn, if_false, Option.toList_none, List.nil_append, ih]
          omega
      · have hc : natGtJnum (i + 1) (JNum.val (L : ℚ)) = false := by
          simp only [natGtJnum, decide_eq_false_iff_not, not_lt]
          exact_mod_cast (by omega : i + 1 ≤ L)
        rw [show lengthLoopGo (stdInstances n) (JNum.val (L : ℚ)) (i + 1) = [] from by
          simp [lengthLoopGo, hc]]
        simp only [List.not_mem_nil, false_iff]
        omega

/-- C3: with live instances at indices `0 .. n-1`, a `length` write of `L`
calls `delete()` on exactly the instances at indices `≥ L` (every index `< L`
stays untouched), and a write of `L ≥ n` destroys nothing; the listener's
length branch only appends those deletions to the disposal log and leaves
the instance map itself unchanged. -/
theorem claim_C3_confirmed (n L idx : Nat) :
    (idx ∈ lengthLoopGo (stdInstances n) (JNum.val (L : ℚ)) n ↔ (L ≤ idx ∧ idx < n)) ∧
    (n ≤ L → lengthLoopGo (stdInstances n) (JNum.val (L : ℚ)) n = []) ∧
    (∀ s : ForSt, s.instances = stdInstances n →
      (lengthBranch s (JNum.val (L : ℚ))).destroyed =
        s.destroyed ++ lengthLoopGo (stdInstances n) (JNum.val (L : ℚ)) n ∧
      (lengthBranch s (JNum.val (L : ℚ))).instances = s.instances) := by
  refine ⟨?_, ?_, ?_⟩
  · rw [lengthLoopGo_mem]
    omega
  · intro h
    refine List.eq_nil_iff_forall_not_mem.mpr ?_
    intro x hx
    rw [lengthLoopGo_mem] at hx
    omega
  · intro s hs
    refine ⟨?_, rfl⟩
    simp only [lengthBranch, hs, stdInstances_length]

/-- C3 witness: the length-shrink properties at `n = 3`, `L = 1`: index `2`
is destroyed, and a write of `L = 3` (equal to the instance count) destroys
nothing. -/
theorem claim_C3_witness :
    (2 ∈ lengthLoopGo (stdInstances 3) (JNum.val ((1 : Nat) : ℚ)) 3) ∧
    lengthLoopGo (stdInstances 3) (JNum.val ((3 : Nat) : ℚ)) 3 = [] ∧
    (lengthBranch ⟨stdInstances 3, [], 3⟩ (JNum.val ((1 : Nat) : ℚ))).destroyed =
      [] ++ lengthLoopGo (stdInstances 3) (JNum.val ((1 : Nat) : ℚ)) 3 :=
  ⟨(claim_C3_confirmed 3 1 2).1.mpr (by omega),
   (claim_C3_confirmed 3 3 0).2.1 (by omega),
   ((claim_C3_confirmed 3 1 0).2.2 ⟨stdInstances 3, [], 3⟩ rfl).1⟩

/-- C4: evaluation of the container listener at the failing input.  A write
whose key is the non-numeric string `"foo"` is *not* ignored: `parseFloat`
yields `NaN`, the guard `index == null || index < 0` is false for `NaN`, and
`instantiate` runs, creating a fresh instance keyed `NaN` — contradicting
the claim and the source's own comment ("if property is not an index,
ignore it").  Symbolic and negative keys are ignored as claimed, and a
numeric index write disposes the old instance and re-creates exactly that
index (replace semantics). -/
theorem claim_C4_code_bug :
    (containerListener ⟨stdInstances 2, [], 2⟩ (PropKey.str "foo") (JNum.val 9)).instances =
      stdInstances 2 ++ [(JNum.nan, 2)] ∧
    containerListener ⟨stdInstances 2, [], 2⟩ (PropKey.sym 0) (JNum.val 9) =
      ⟨stdInstances 2, [], 2⟩ ∧
    containerListener ⟨stdInstances 2, [], 2⟩ (PropKey.str "-2") (JNum.val 9) =
      ⟨stdInstances 2, [], 2⟩ ∧
    containerListener ⟨stdInstances 2, [], 2⟩ (PropKey.str "1") (JNum.val 9) =
      ⟨[(JNum.val 0, 0), (JNum.val 1, 2)], [1], 3⟩ := by
  refine ⟨by decide, by decide, by decide, by decide⟩

/-! ## Text-node template recompute (`replace`), part_000 lines 378-447

A recompute pass (the `init = false` case of `replace`) evaluates each
`\x7b\x7bexpr\x7d\x7d` entry's compiled closure, compares against the
per-expression value cache, and — only if at least one entry changed —
rebuilds the whole interpolated string from the saved template and assigns
it to the text node in a single write. -/

/-- Does `pat` occur at the start of `l`? -/
def patAt : List Char → List Char → Bool
  | [], _ => true
  | _ :: _, [] => false
  | p :: ps, c :: cs => p = c && patAt ps cs

/-- JavaScript `String.prototype.replace` with a string pattern: replace the
first occurrence only (the original string is returned unchanged when the
pattern does not occur). -/
def replaceFirstChars (pat rep : List Char) : List Char → List Char
  | [] => if patAt pat [] then rep else []
  | c :: rest =>
      if patAt pat (c :: rest) then rep ++ (c :: rest).drop pat.length
      else c :: replaceFirstChars pat rep rest

def replaceFirst (s pat rep : String) : String :=
  ⟨replaceFirstChars pat.data rep.data s.data⟩

/-- State of one bound text node: the per-expression value cache
(`entryValueCache`), the node's current content (`node.nodeValue`), and a
count of assignments made to `node.nodeValue` (to express "a single
write"). -/
structure TextSt where
  cache : List (String × JSVal)
  nodeValue : String
  writes : Nat
deriving DecidableEq, Repr

/-- The per-entry loop of `replace`: evaluate each entry's closure (a throw
skips the entry — `catch(e){continue}`); when the result differs from the
cached value (or no value is cached), record the entry in the changed set
and update the cache. -/
def updateEntries (evalE : String → Except Unit JSVal) :
    List String → List (String × JSVal) → List String →
    List (String × JSVal) × List String
  | [], cache, changed => (cache, changed)
  | e :: rest, cache, changed =>
      match evalE e with
      | .error _ => updateEntries evalE rest cache changed
      | .ok v =>
          if assocLookup cache e = some v then
            updateEntries evalE rest cache changed
          else
            updateEntries evalE rest (assocSet cache e v)
              (if e ∈ changed then changed else changed ++ [e])

/-- The rebuild loop of `replace`: starting from the saved template text,
replace the first occurrence of `\x7b\x7bentry\x7d\x7d` for each entry (in
order, so duplicated entries consume successive occurrences) with the
cached value converted to a string (`undefined` when no value was ever
cached). -/
def renderTemplate (template : String) (entries : List String)
    (cache : List (String × JSVal)) : String :=
  entries.foldl
    (fun acc e =>
      replaceFirst acc ("\x7b\x7b" ++ e ++ "\x7d\x7d")
        (jsValToString ((assocLookup cache e).getD JSVal.undef)))
    template

/-- Transcription of one recompute pass of `replace` (non-init): run the
per-entry loop; if the changed set is empty, return without touching the
node; otherwise rebuild the interpolated string and assign it once. -/
def replacePass (evalE : String → Except Unit JSVal) (template : String)
    (entries : List String) (s : TextSt) : TextSt :=
  let r := updateEntries evalE entries s.cache []
  if r.2.isEmpty then { s with cache := r.1 }
  else { cache := r.1, nodeValue := renderTemplate template entries r.1,
         writes := s.writes + 1 }

theorem updateEntries_unchanged (evalE : String → Except Unit JSVal)
    (entries : List String) :
    ∀ cache changed,
      (∀ e ∈ entries, ∀ v, evalE e = .ok v → assocLookup cache e = some v) →
      updateEntries evalE entries cache changed = (cache, changed) := by
  induction entries with
  | nil => intro cache changed _; rfl
  | cons e rest ih =>
      intro cache changed h
      cases hv : evalE e with
      | error err =>
          simp only [updateEntries, hv]
          exact ih cache changed (fun x hx v hvx => h x (List.mem_cons_of_mem e hx) v hvx)
      | ok v =>
          have hc : assocLookup cache e = some v := h e (List.mem_cons_self e rest) v hv
          simp only [updateEntries, hv, hc, if_pos rfl]
          exact ih cache changed (fun x hx w hwx => h x (List.mem_cons_of_mem e hx) w hwx)

theorem updateEntries_changed_extends (evalE : String → Except Unit JSVal)
    (entries : List String) :
    ∀ cache changed, ∃ t, (updateEntries evalE entries cache changed).2 = changed ++ t := by
  induction entries with
  | nil => intro cache changed; exact ⟨[], by simp [updateEntries]⟩
  | cons e rest ih =>
      intro cache changed
      cases hv : evalE e with
      | error err => simpa only [updateEntries, hv] using ih cache changed
      | ok v =>
          by_cases hc : assocLookup cache e = some v
          · simpa only [updateEntries, hv, hc, if_pos rfl] using ih cache changed
          · simp only [updateEntries, hv, if_neg hc]
            by_cases hm : e ∈ changed
            · simpa only [hm, if_pos rfl] using ih (assocSet cache e v) changed
            · obtain ⟨t, ht⟩ := ih (assocSet cache e v) (changed ++ [e])
              refine ⟨e :: t, ?_⟩
              rw [if_neg hm, ht, List.append_assoc]
              rfl

theorem updateEntries_empty_of_match (evalE : String → Except Unit JSVal)
    (entries : List String) :
    ∀ cache changed, (updateEntries evalE entries cache changed).2 = [] →
      changed = [] ∧ (∀ e ∈ entries, ∀ v, evalE e = .ok v → assocLookup cache e = some v) := by
  induction entries with
  | nil =>
      intro cache changed h
      simp only [updateEntries] at h
      exact ⟨h, by intro e he; simp at he⟩
  | cons e rest ih =>
      intro cache changed h
      cases hv : evalE e with
      | error err =>
          simp only [updateEntries, hv] at h
          obtain ⟨h1, h2⟩ := ih cache changed h
          refine ⟨h1, ?_⟩
          intro x hx v hvx
          rcases List.mem_cons.mp hx with rfl | hx2
          · rw [hvx] at hv; cases hv
          · exact h2 x hx2 v hvx
      | ok v =>
          by_cases hc : assocLookup cache e = some v
          · simp only [updateEntries, hv] at h
            rw [if_pos hc] at h
            obtain ⟨h1, h2⟩ := ih cache changed h
            refine ⟨h1, ?_⟩
            intro x hx w hwx
            rcases List.mem_cons.mp hx with rfl | hx2
            · rw [hwx] at hv
              cases hv
              exact hc
            · exact h2 x hx2 w hwx
          · exfalso
            simp only [updateEntries, hv] at h
            rw [if_neg hc] at h
            obtain ⟨t, ht⟩ := updateEntries_changed_extends evalE rest
              (assocSet cache e v) (if e ∈ changed then changed else changed ++ [e])
            rw [ht] at h
            have := List.append_eq_nil.mp h
            by_cases hm : e ∈ changed
            · rw [if_pos hm] at this
              rw [this.1] at hm
              simp at hm
            · rw [if_neg hm] at this
              simp at this

/-- C9: on a recompute pass of a text node's template, (a) if every entry
whose closure evaluates successfully yields exactly its cached value, the
pass changes nothing — in particular the node is not written; (b) if some
entry evaluates successfully to a value differing from its cache entry, the
node receives exactly one write (never one per sub-expression), whose
content is the full interpolated string rebuilt from the saved template and
the updated cache. -/
theorem claim_C9_confirmed (evalE : String → Except Unit JSVal) (template : String)
    (entries : List String) (s : TextSt) :
    ((∀ e ∈ entries, ∀ v, evalE e = .ok v → assocLookup s.cache e = some v) →
        replacePass evalE template entries s = s) ∧
    ((∃ e ∈ entries, ∃ v, evalE e = .ok v ∧ assocLookup s.cache e ≠ some v) →
        (replacePass evalE template entries s).writes = s.writes + 1 ∧
        (replacePass evalE template entries s).nodeValue =
          renderTemplate template entries (updateEntries evalE entries s.cache []).1) := by
  constructor
  · intro h
    unfold replacePass
    rw [updateEntries_unchanged evalE entries s.cache [] h]
    rfl
  · intro h
    have hne : (updateEntries evalE entries s.cache []).2 ≠ [] := by
      intro hnil
      obtain ⟨e, he, v, hv, hc⟩ := h
      exact hc ((updateEntries_empty_of_match evalE entries s.cache [] hnil).2 e he v hv)
    unfold replacePass
    rw [if_neg (by simpa [List.isEmpty_iff] using hne)]
    exact ⟨rfl, rfl⟩

/-- C9 witness: a single-entry template `"a \x7b\x7bx\x7d\x7d"` whose entry
now evaluates to `2` against a cache holding `1` gets exactly one write with
the fully rebuilt string `"a 2"`; the same pass against a matching cache
leaves the state untouched. -/
theorem claim_C9_witness :
    (replacePass (fun e => if e = "x" then Except.ok (JSVal.num 2) else Except.error ())
        "a \x7b\x7bx\x7d\x7d" ["x"] ⟨[("x", JSVal.num 1)], "a 1", 1⟩).writes = 2 ∧
    (replacePass (fun e => if e = "x" then Except.ok (JSVal.num 2) else Except.error ())
        "a \x7b\x7bx\x7d\x7d" ["x"] ⟨[("x", JSVal.num 1)], "a 1", 1⟩).nodeValue = "a 2" ∧
    replacePass (fun e => if e = "x" then Except.ok (JSVal.num 2) else Except.error ())
        "a \x7b\x7bx\x7d\x7d" ["x"] ⟨[("x", JSVal.num 2)], "a 2", 2⟩ =
      ⟨[("x", JSVal.num 2)], "a 2", 2⟩ := by
  have h := (claim_C9_confirmed
      (fun e => if e = "x" then Except.ok (JSVal.num 2) else Except.error ())
      "a \x7b\x7bx\x7d\x7d" ["x"] ⟨[("x", JSVal.num 1)], "a 1", 1⟩).2
    ⟨"x", List.mem_singleton.mpr rfl, JSVal.num 2, rfl, by decide⟩
  refine ⟨h.1, ?_, ?_⟩
  · rw [h.2]; decide
  · refine (claim_C9_confirmed
        (fun e => if e = "x" then Except.ok (JSVal.num 2) else Except.error ())
        "a \x7b\x7bx\x7d\x7d" ["x"] ⟨[("x", JSVal.num 2)], "a 2", 2⟩).1 ?_
    intro e he v hv
    rw [List.mem_singleton] at he
    subst he
    rw [if_pos rfl] at hv
    injection hv with hv2
    subst hv2
    rfl

/-! ## Bindings scope chain, part_000 lines 50-237

A scope owns a `Map<string, Binding>` (unique names, insertion order) and a
list of inherited scopes.  Binding values are modelled as numeric ids, with
Lean equality standing for JavaScript reference identity (`===`/`!==`). -/

inductive BindingsT where
  | mk (own : List (String × Nat)) (inherited : List BindingsT)

def BindingsT.own : BindingsT → List (String × Nat)
  | .mk o _ => o

def BindingsT.inheritedScopes : BindingsT → List BindingsT
  | .mk _ i => i

mutual
/-- Transcription of `Bindings._getBindingValue`: return the own binding if
present (`if(ret) return ret`); otherwise run the loop over the inherited
scopes, where each successful recursive resolution overwrites `ret` and a
throwing one (`catch(e){}`) leaves it unchanged; `none` models the final
`throw new Error("binding not found" + name)`. -/
def getBindingValue : BindingsT → String → Option Nat
  | .mk own inh, name =>
      match assocLookup own name with
      | some v => some v
      | none => gbvLoop inh name none
/-- The `for(let inheritedBindingList of this.inherited_bindings)` loop of
`_getBindingValue`, threading the mutable `ret`.  Note that the loop does
not stop at the first success. -/
def gbvLoop : List BindingsT → String → Option Nat → Option Nat
  | [], _, ret => ret
  | b :: bs, name, ret =>
      match getBindingValue b name with
      | some v => gbvLoop bs name (some v)
      | none => gbvLoop bs name ret
end

mutual
/-- Whether a name is bound in a scope or any transitively inherited
scope. -/
def boundIn : BindingsT → String → Bool
  | .mk own inh, name => (assocLookup own name).isSome || boundInList inh name
def boundInList : List BindingsT → String → Bool
  | [], _ => false
  | b :: bs, name => boundIn b name || boundInList bs name
end

mutual
/-- The raw own-then-inherited depth-first traversal order of all bindings
reachable from a scope (own bindings first, then each inherited scope's
bindings recursively, in registration order). -/
def preorder : BindingsT → List (String × Nat)
  | .mk own inh => own ++ preorderList inh
def preorderList : List BindingsT → List (String × Nat)
  | [] => []
  | b :: bs => preorder b ++ preorderList bs
end

/-- Accumulator of `_getBindingMap`: the `ret` map under construction plus
the `console.warn` log of `(name, conflicting value, kept value)`
entries. -/
abbrev BindingMapAcc := List (String × Nat) × List (String × Nat × Nat)

/-- Transcription of the inner `iterAndSetBindings` of `_getBindingMap`:
for each binding, if the map already holds this name with a non-identical
value, warn and skip; otherwise `ret.set(name, binding)` (an identical
value overwrites in place). -/
def iterAndSetBindings (acc : BindingMapAcc) :
    List (String × Nat) → BindingMapAcc
  | [] => acc
  | (name, v) :: rest =>
      match assocLookup acc.1 name with
      | some w =>
          if v ≠ w then iterAndSetBindings (acc.1, acc.2 ++ [(name, v, w)]) rest
          else iterAndSetBindings (assocSet acc.1 name v, acc.2) rest
      | none => iterAndSetBindings (assocSet acc.1 name v, acc.2) rest

mutual
/-- Transcription of `Bindings._getBindingMap`: fold the own bindings into
a fresh map, then for each inherited scope fold in its recursively computed
map (the recursive call's warnings are also on the console, hence
accumulated). -/
def getBindingMap : BindingsT → BindingMapAcc
  | .mk own inh => getBindingMapList inh (iterAndSetBindings ([], []) own)
def getBindingMapList : List BindingsT → BindingMapAcc → BindingMapAcc
  | [], acc => acc
  | b :: bs, acc =>
      getBindingMapList bs
        (iterAndSetBindings (acc.1, acc.2 ++ (getBindingMap b).2) (getBindingMap b).1)
end

/-! ## Claim C5: name resolution order of `_getBindingValue` -/

theorem gbvLoop_append (xs ys : List BindingsT) (name : String) (r : Option Nat) :
    gbvLoop (xs ++ ys) name r = gbvLoop ys name (gbvLoop xs name r) := by
  induction xs generalizing r with
  | nil => rfl
  | cons b bs ih =>
      simp only [List.cons_append, gbvLoop]
      cases getBindingValue b name <;> simp [ih]

theorem gbvLoop_none_of_all (bs : List BindingsT) (name : String) (r : Option Nat)
    (h : ∀ b ∈ bs, getBindingValue b name = none) :
    gbvLoop bs name r = r := by
  induction bs generalizing r with
  | nil => rfl
  | cons b rest ih =>
      have hb := h b (List.mem_cons_self b rest)
      simp only [gbvLoop, hb]
      exact ih r (fun x hx => h x (List.mem_cons_of_mem b hx))

mutual
theorem getBindingValue_isSome (b : BindingsT) (name : String) :
    (getBindingValue b name).isSome = boundIn b name := by
  cases b with
  | mk own inh =>
      cases h : assocLookup own name with
      | some v => simp [getBindingValue, boundIn, h]
      | none =>
          simp only [getBindingValue, boundIn, h, Option.isSome_none, Bool.false_or]
          rw [gbvLoop_isSome inh name none]
          simp
theorem gbvLoop_isSome (bs : List BindingsT) (name : String) (r : Option Nat) :
    (gbvLoop bs name r).isSome = (boundInList bs name || r.isSome) := by
  cases bs with
  | nil => simp [gbvLoop, boundInList]
  | cons b rest =>
      cases h : getBindingValue b name with
      | some v =>
          have hb : boundIn b name = true := by
            rw [← getBindingValue_isSome b name, h]
            rfl
          simp only [gbvLoop, h, boundInList, hb, Bool.true_or]
          rw [gbvLoop_isSome rest name (some v)]
          simp
      | none =>
          have hb : boundIn b name = false := by
            rw [← getBindingValue_isSome b name, h]
            rfl
          simp only [gbvLoop, h, boundInList, hb, Bool.false_or]
          exact gbvLoop_isSome rest name r
end

/-- C5 counterexample: a scope inheriting two scopes (in registration order)
that bind `"x"` to the distinct values `1` and `2`.  Depth-first first-match
resolution would return `1`, but `_getBindingValue`'s loop over the
inherited scopes does not stop at the first success — each success
overwrites `ret` — so resolution returns `2`, the *last* match. -/
theorem claim_C5_counterexample :
    getBindingValue (.mk [] [.mk [("x", 1)] [], .mk [("x", 2)] []]) "x" = some 2 ∧
    getBindingValue (.mk [] [.mk [("x", 1)] [], .mk [("x", 2)] []]) "x" ≠ some 1 := by
  have h : getBindingValue (.mk [] [.mk [("x", 1)] [], .mk [("x", 2)] []]) "x" = some 2 := by
    simp [getBindingValue, gbvLoop, assocLookup]
  exact ⟨h, by rw [h]; decide⟩

/-- C5 amended: resolution returns the scope's own binding immediately when
the name is bound directly; otherwise every inherited scope is searched
recursively in registration order with failures skipped, and the match of
the *last* inherited scope that resolves successfully wins (not the first);
resolution throws (returns `none`) exactly when no binding with that name
exists in the scope or any transitively inherited scope. -/
theorem claim_C5_amended :
    (∀ own inh name v, assocLookup own name = some v →
        getBindingValue (.mk own inh) name = some v) ∧
    (∀ own inh name pre b post v, assocLookup own name = none →
        inh = pre ++ b :: post →
        getBindingValue b name = some v →
        (∀ c ∈ post, getBindingValue c name = none) →
        getBindingValue (.mk own inh) name = some v) ∧
    (∀ b name, getBindingValue b name = none ↔ boundIn b name = false) := by
  refine ⟨?_, ?_, ?_⟩
  · intro own inh name v h
    simp [getBindingValue, h]
  · intro own inh name pre b post v hown hinh hb hpost
    subst hinh
    simp only [getBindingValue, hown]
    rw [gbvLoop_append]
    simp only [gbvLoop, hb]
    exact gbvLoop_none_of_all post name (some v) hpost
  · intro b name
    rw [← getBindingValue_isSome b name]
    cases getBindingValue b name <;> simp

/-- C5 witness: the amended resolution rules at concrete scopes — an own
binding wins, the last successful inherited scope wins otherwise, and an
unbound name throws. -/
theorem claim_C5_witness :
    getBindingValue (.mk [("y", 5)] [.mk [("x", 1)] [], .mk [("x", 2)] []]) "y" = some 5 ∧
    getBindingValue (.mk [] [.mk [("x", 1)] [], .mk [("x", 2)] []]) "x" = some 2 ∧
    (getBindingValue (.mk [] [.mk [("x", 1)] [], .mk [("x", 2)] []]) "z" = none ↔
      boundIn (.mk [] [.mk [("x", 1)] [], .mk [("x", 2)] []]) "z" = false) :=
  ⟨claim_C5_amended.1 [("y", 5)] [.mk [("x", 1)] [], .mk [("x", 2)] []] "y" 5
      (by simp [assocLookup]),
   claim_C5_amended.2.1 [] [.mk [("x", 1)] [], .mk [("x", 2)] []] "x"
      [.mk [("x", 1)] []] (.mk [("x", 2)] []) [] 2 rfl rfl
      (by simp [getBindingValue, gbvLoop, assocLookup])
      (by intro c hc; cases hc),
   claim_C5_amended.2.2 (.mk [] [.mk [("x", 1)] [], .mk [("x", 2)] []]) "z"⟩

/-! ## Claim C6: flattening via `_getBindingMap` -/

theorem assocLookup_isSome_of_mem {α β : Type} [DecidableEq α] {l : List (α × β)}
    {k : α} {v : β} (h : (k, v) ∈ l) : ∃ u, assocLookup l k = some u := by
  induction l with
  | nil => cases h
  | cons hd tl ih =>
      obtain ⟨k1, v1⟩ := hd
      by_cases hk : k = k1
      · exact ⟨v1, by simp [assocLookup, hk]⟩
      · rcases List.mem_cons.mp h with heq | hm
        · exact absurd (congrArg Prod.fst heq) hk
        · obtain ⟨u, hu⟩ := ih hm
          exact ⟨u, by simp [assocLookup, hk, hu]⟩

theorem mem_of_assocLookup {α β : Type} [DecidableEq α] {l : List (α × β)}
    {k : α} {u : β} (h : assocLookup l k = some u) : (k, u) ∈ l := by
  induction l with
  | nil => simp [assocLookup] at h
  | cons hd tl ih =>
      obtain ⟨k1, v1⟩ := hd
      by_cases hk : k = k1
      · subst hk
        have h1 : v1 = u := by simpa [assocLookup] using h
        subst h1
        exact List.mem_cons_self _ _
      · simp only [assocLookup, if_neg hk] at h
        exact List.mem_cons_of_mem _ (ih h)

theorem iterAndSet_lookup (es : List (String × Nat)) :
    ∀ (acc : BindingMapAcc) (name : String),
      assocLookup (iterAndSetBindings acc es).1 name =
        (match assocLookup acc.1 name with
         | some w => some w
         | none => assocLookup es name) := by
  induction es with
  | nil =>
      intro acc name
      cases h : assocLookup acc.1 name <;> simp [iterAndSetBindings, assocLookup, h]
  | cons pr rest ih =>
      obtain ⟨n, v⟩ := pr
      intro acc name
      by_cases hn : name = n
      · subst hn
        cases ha : assocLookup acc.1 name with
        | some w =>
            by_cases hv : v ≠ w
            · simp only [iterAndSetBindings, ha, if_pos hv]
              rw [ih]
              simp [ha]
            · have hv2 : v = w := not_not.mp hv
              simp only [iterAndSetBindings, ha, if_neg hv]
              rw [ih]
              rw [assocLookup_assocSet_self]
              simp [hv2]
        | none =>
            simp only [iterAndSetBindings, ha]
            rw [ih, assocLookup_assocSet_self]
            simp [ha, assocLookup]
      · cases ha : assocLookup acc.1 n with
        | some w =>
            by_cases hv : v ≠ w
            · simp only [iterAndSetBindings, ha, if_pos hv]
              rw [ih]
              simp [assocLookup, hn]
            · simp only [iterAndSetBindings, ha, if_neg hv]
              rw [ih, assocLookup_assocSet_ne _ _ _ _ hn]
              simp [assocLookup, hn]
        | none =>
            simp only [iterAndSetBindings, ha]
            rw [ih, assocLookup_assocSet_ne _ _ _ _ hn]
            simp [assocLookup, hn]

theorem iterAndSet_lookup_keep (es : List (String × Nat)) (acc : BindingMapAcc)
    (name : String) (w : Nat) (h : assocLookup acc.1 name = some w) :
    assocLookup (iterAndSetBindings acc es).1 name = some w := by
  rw [iterAndSet_lookup, h]

theorem iterAndSet_warn_mono (es : List (String × Nat)) :
    ∀ (acc : BindingMapAcc) (x : String × Nat × Nat), x ∈ acc.2 →
      x ∈ (iterAndSetBindings acc es).2 := by
  induction es with
  | nil => intro acc x hx; exact hx
  | cons pr rest ih =>
      obtain ⟨n, v⟩ := pr
      intro acc x hx
      cases ha : assocLookup acc.1 n with
      | some w =>
          by_cases hv : v ≠ w
          · simp only [iterAndSetBindings, ha, if_pos hv]
            exact ih _ x (by simp [hx])
          · simp only [iterAndSetBindings, ha, if_neg hv]
            exact ih _ x hx
      | none =>
          simp only [iterAndSetBindings, ha]
          exact ih _ x hx

theorem gbmList_warn_mono (bs : List BindingsT) :
    ∀ (acc : BindingMapAcc) (x : String × Nat × Nat), x ∈ acc.2 →
      x ∈ (getBindingMapList bs acc).2 := by
  induction bs with
  | nil => intro acc x hx; exact hx
  | cons b rest ih =>
      intro acc x hx
      simp only [getBindingMapList]
      exact ih _ x (iterAndSet_warn_mono _ _ x (by simp [hx]))

theorem iterAndSet_warn_emit (es : List (String × Nat)) :
    ∀ (acc : BindingMapAcc) (name : String) (w v : Nat),
      assocLookup acc.1 name = some w → (name, v) ∈ es → v ≠ w →
      ∃ p q, (name, p, q) ∈ (iterAndSetBindings acc es).2 := by
  induction es with
  | nil => intro acc name w v _ hm _; cases hm
  | cons pr rest ih =>
      obtain ⟨n, u⟩ := pr
      intro acc name w v ha hm hne
      rcases List.mem_cons.mp hm with heq | hm2
      · obtain ⟨rfl, rfl⟩ : name = n ∧ v = u := by
          refine ⟨congrArg Prod.fst heq, congrArg Prod.snd heq⟩
        simp only [iterAndSetBindings, ha, if_pos hne]
        exact ⟨v, w, iterAndSet_warn_mono rest _ (name, v, w) (by simp)⟩
      · cases hb : assocLookup acc.1 n with
        | some w2 =>
            by_cases hval : u ≠ w2
            · simp only [iterAndSetBindings, hb, if_pos hval]
              exact ih _ name w v ha hm2 hne
            · have hval2 : u = w2 := not_not.mp hval
              simp only [iterAndSetBindings, hb, if_neg hval]
              refine ih _ name w v ?_ hm2 hne
              by_cases hn : name = n
              · subst hn
                rw [assocLookup_assocSet_self]
                rw [hb] at ha
                injection ha with hh
                rw [hval2, hh]
              · rw [assocLookup_assocSet_ne _ _ _ _ hn]
                exact ha
        | none =>
            simp only [iterAndSetBindings, hb]
            refine ih _ name w v ?_ hm2 hne
            by_cases hn : name = n
            · subst hn
              rw [ha] at hb
              cases hb
            · rw [assocLookup_assocSet_ne _ _ _ _ hn]
              exact ha

theorem iterAndSet_warn_dup (es : List (String × Nat)) :
    ∀ (acc : BindingMapAcc) (name : String) (v w : Nat),
      (name, v) ∈ es → (name, w) ∈ es → v ≠ w →
      ∃ p q, (name, p, q) ∈ (iterAndSetBindings acc es).2 := by
  induction es with
  | nil => intro acc name v w hm _ _; cases hm
  | cons pr rest ih =>
      obtain ⟨n, u⟩ := pr
      intro acc name v w hmv hmw hne
      cases hl : assocLookup acc.1 name with
      | some t =>
          by_cases hvt : v = t
          · exact iterAndSet_warn_emit _ acc name t w hl hmw (by rw [← hvt]; exact hne.symm)
          · exact iterAndSet_warn_emit _ acc name t v hl hmv hvt
      | none =>
          by_cases hn : n = name
          · subst hn
            simp only [iterAndSetBindings, hl]
            have hlook : assocLookup (assocSet acc.1 n u) n = some u :=
              assocLookup_assocSet_self _ _ _
            rcases List.mem_cons.mp hmv with heqv | hmv2
            · have hvu : v = u := congrArg Prod.snd heqv
              have hmw2 : (n, w) ∈ rest := by
                rcases List.mem_cons.mp hmw with heqw | h2
                · exact absurd (hvu.trans (congrArg Prod.snd heqw).symm) hne
                · exact h2
              refine iterAndSet_warn_emit rest _ n u w hlook hmw2 ?_
              rw [hvu] at hne
              exact hne.symm
            · rcases List.mem_cons.mp hmw with heqw | hmw2
              · have hwu : w = u := congrArg Prod.snd heqw
                refine iterAndSet_warn_emit rest _ n u v hlook hmv2 ?_
                rw [hwu] at hne
                exact hne
              · by_cases hvu : v = u
                · refine iterAndSet_warn_emit rest _ n u w hlook hmw2 ?_
                  rw [hvu] at hne
                  exact hne.symm
                · exact iterAndSet_warn_emit rest _ n u v hlook hmv2 hvu
          · have hmv2 : (name, v) ∈ rest := by
              rcases List.mem_cons.mp hmv with heq | h2
              · exact absurd (congrArg Prod.fst heq).symm hn
              · exact h2
            have hmw2 : (name, w) ∈ rest := by
              rcases List.mem_cons.mp hmw with heq | h2
              · exact absurd (congrArg Prod.fst heq).symm hn
              · exact h2
            cases hb : assocLookup acc.1 n with
            | some w2 =>
                by_cases hval : u ≠ w2
                · simp only [iterAndSetBindings, hb, if_pos hval]
                  exact ih _ name v w hmv2 hmw2 hne
                · simp only [iterAndSetBindings, hb, if_neg hval]
                  exact ih _ name v w hmv2 hmw2 hne
            | none =>
                simp only [iterAndSetBindings, hb]
                exact ih _ name v w hmv2 hmw2 hne

mutual
theorem gbm_lookup (b : BindingsT) (name : String) :
    assocLookup (getBindingMap b).1 name = assocLookup (preorder b) name := by
  cases b with
  | mk own inh =>
      show assocLookup (getBindingMapList inh (iterAndSetBindings ([], []) own)).1 name =
        assocLookup (own ++ preorderList inh) name
      rw [gbmList_lookup inh (iterAndSetBindings ([], []) own) name]
      rw [iterAndSet_lookup own ([], []) name]
      cases h : assocLookup own name with
      | some v =>
          rw [assocLookup_append_some _ v h]
          rfl
      | none =>
          rw [assocLookup_append_none _ h]
          rfl
theorem gbmList_lookup (bs : List BindingsT) (acc : BindingMapAcc) (name : String) :
    assocLookup (getBindingMapList bs acc).1 name =
      (match assocLookup acc.1 name with
       | some w => some w
       | none => assocLookup (preorderList bs) name) := by
  cases bs with
  | nil =>
      cases h : assocLookup acc.1 name <;>
        simp [getBindingMapList, preorderList, assocLookup, h]
  | cons b rest =>
      show assocLookup (getBindingMapList rest
          (iterAndSetBindings (acc.1, acc.2 ++ (getBindingMap b).2) (getBindingMap b).1)).1 name = _
      rw [gbmList_lookup rest _ name]
      rw [iterAndSet_lookup (getBindingMap b).1 (acc.1, acc.2 ++ (getBindingMap b).2) name]
      show (match (match assocLookup acc.1 name with
             | some w => some w
             | none => assocLookup (getBindingMap b).1 name) with
            | some w => some w
            | none => assocLookup (preorderList rest) name) = _
      cases h : assocLookup acc.1 name with
      | some w => rfl
      | none =>
          rw [gbm_lookup b name]
          show (match assocLookup (preorder b) name with
                | some w => some w
                | none => assocLookup (preorderList rest) name) =
            assocLookup (preorder b ++ preorderList rest) name
          cases hb : assocLookup (preorder b) name with
          | some v => rw [assocLookup_append_some _ v hb]
          | none => rw [assocLookup_append_none _ hb]
end

mutual
theorem gbm_conflict (b : BindingsT) (name : String) (v w : Nat)
    (hv : (name, v) ∈ preorder b) (hw : (name, w) ∈ preorder b) (hne : v ≠ w) :
    ∃ p q, (name, p, q) ∈ (getBindingMap b).2 := by
  cases b with
  | mk own inh =>
      show ∃ p q, (name, p, q) ∈
        (getBindingMapList inh (iterAndSetBindings ([], []) own)).2
      rw [show preorder (.mk own inh) = own ++ preorderList inh from rfl] at hv hw
      have hacc0 : ∀ u, assocLookup own name = some u →
          assocLookup (iterAndSetBindings ([], []) own).1 name = some u := by
        intro u hu
        rw [iterAndSet_lookup own ([], []) name]
        exact hu
      rcases List.mem_append.mp hv with hv1 | hv2
      · rcases List.mem_append.mp hw with hw1 | hw2
        · -- both in own
          obtain ⟨p, q, hpq⟩ := iterAndSet_warn_dup own ([], []) name v w hv1 hw1 hne
          exact ⟨p, q, gbmList_warn_mono inh _ (name, p, q) hpq⟩
        · -- v in own, w inherited
          obtain ⟨u, hu⟩ := assocLookup_isSome_of_mem hv1
          by_cases huv : u = v
          · refine gbmList_conflict_acc inh _ name u w (hacc0 u hu) hw2 ?_
            rw [huv]
            exact hne.symm
          · obtain ⟨p, q, hpq⟩ := iterAndSet_warn_dup own ([], []) name v u hv1
              (mem_of_assocLookup hu) (fun hc => huv hc.symm)
            exact ⟨p, q, gbmList_warn_mono inh _ (name, p, q) hpq⟩
      · rcases List.mem_append.mp hw with hw1 | hw2
        · -- w in own, v inherited
          obtain ⟨u, hu⟩ := assocLookup_isSome_of_mem hw1
          by_cases huw : u = w
          · refine gbmList_conflict_acc inh _ name u v (hacc0 u hu) hv2 ?_
            rw [huw]
            exact hne
          · obtain ⟨p, q, hpq⟩ := iterAndSet_warn_dup own ([], []) name w u hw1
              (mem_of_assocLookup hu) (fun hc => huw hc.symm)
            exact ⟨p, q, gbmList_warn_mono inh _ (name, p, q) hpq⟩
        · -- both inherited
          exact gbmList_conflict_in inh _ name v w hv2 hw2 hne
theorem gbmList_conflict_acc (bs : List BindingsT) (acc : BindingMapAcc) (name : String)
    (w v : Nat) (ha : assocLookup acc.1 name = some w)
    (hv : (name, v) ∈ preorderList bs) (hne : v ≠ w) :
    ∃ p q, (name, p, q) ∈ (getBindingMapList bs acc).2 := by
  cases bs with
  | nil => cases hv
  | cons b rest =>
      show ∃ p q, (name, p, q) ∈ (getBindingMapList rest
        (iterAndSetBindings (acc.1, acc.2 ++ (getBindingMap b).2) (getBindingMap b).1)).2
      rcases List.mem_append.mp hv with hv1 | hv2
      · obtain ⟨u, hu⟩ := assocLookup_isSome_of_mem hv1
        have hmap : assocLookup (getBindingMap b).1 name = some u := by
          rw [gbm_lookup b name]
          exact hu
        by_cases huw : u = w
        · -- internal conflict inside b: u (first value) = w differs from v
          obtain ⟨p, q, hpq⟩ := gbm_conflict b name v u hv1 (mem_of_assocLookup hu)
            (fun hc => hne (hc.trans huw))
          refine ⟨p, q, gbmList_warn_mono rest _ (name, p, q)
            (iterAndSet_warn_mono _ _ (name, p, q) ?_)⟩
          simp [hpq]
        · -- the merged child map carries (name, u) with u ≠ w: warn at merge
          obtain ⟨p, q, hpq⟩ := iterAndSet_warn_emit (getBindingMap b).1
            (acc.1, acc.2 ++ (getBindingMap b).2) name w u ha
            (mem_of_assocLookup hmap) huw
          exact ⟨p, q, gbmList_warn_mono rest _ (name, p, q) hpq⟩
      · refine gbmList_conflict_acc rest _ name w v ?_ hv2 hne
        exact iterAndSet_lookup_keep _ _ name w ha
theorem gbmList_conflict_in (bs : List BindingsT) (acc : BindingMapAcc) (name : String)
    (v w : Nat) (hv : (name, v) ∈ preorderList bs) (hw : (name, w) ∈ preorderList bs)
    (hne : v ≠ w) :
    ∃ p q, (name, p, q) ∈ (getBindingMapList bs acc).2 := by
  cases bs with
  | nil => cases hv
  | cons b rest =>
      show ∃ p q, (name, p, q) ∈ (getBindingMapList rest
        (iterAndSetBindings (acc.1, acc.2 ++ (getBindingMap b).2) (getBindingMap b).1)).2
      have hmerge : ∀ p q, (name, p, q) ∈ (getBindingMap b).2 →
          ∃ p2 q2, (name, p2, q2) ∈ (getBindingMapList rest
            (iterAndSetBindings (acc.1, acc.2 ++ (getBindingMap b).2) (getBindingMap b).1)).2 := by
        intro p q hpq
        refine ⟨p, q, gbmList_warn_mono rest _ (name, p, q)
          (iterAndSet_warn_mono _ _ (name, p, q) ?_)⟩
        simp [hpq]
      rcases List.mem_append.mp hv with hv1 | hv2
      · rcases List.mem_append.mp hw with hw1 | hw2
        · obtain ⟨p, q, hpq⟩ := gbm_conflict b name v w hv1 hw1 hne
          exact hmerge p q hpq
        · -- v in this child, w further on
          obtain ⟨u, hu⟩ := assocLookup_isSome_of_mem hv1
          have hmap : assocLookup (getBindingMap b).1 name = some u := by
            rw [gbm_lookup b name]
            exact hu
          by_cases huv : u = v
          · cases hacc : assocLookup acc.1 name with
            | some t =>
                by_cases htw : t = w
                · -- v conflicts with the already-held t = w at merge time
                  obtain ⟨p, q, hpq⟩ := iterAndSet_warn_emit (getBindingMap b).1
                    (acc.1, acc.2 ++ (getBindingMap b).2) name t u hacc
                    (mem_of_assocLookup hmap)
                    (by rw [huv, htw]; exact hne)
                  exact ⟨p, q, gbmList_warn_mono rest _ (name, p, q) hpq⟩
                · refine gbmList_conflict_acc rest _ name t w ?_ hw2
                    (fun hc => htw hc.symm)
                  exact iterAndSet_lookup_keep _ _ name t hacc
            | none =>
                refine gbmList_conflict_acc rest _ name u w ?_ hw2
                  (by rw [huv]; exact hne.symm)
                rw [iterAndSet_lookup (getBindingMap b).1
                  (acc.1, acc.2 ++ (getBindingMap b).2) name, hacc]
                exact hmap
          · obtain ⟨p, q, hpq⟩ := gbm_conflict b name v u hv1 (mem_of_assocLookup hu)
              (fun hc => huv hc.symm)
            exact hmerge p q hpq
      · rcases List.mem_append.mp hw with hw1 | hw2
        · -- w in this child, v further on (mirror case)
          obtain ⟨u, hu⟩ := assocLookup_isSome_of_mem hw1
          have hmap : assocLookup (getBindingMap b).1 name = some u := by
            rw [gbm_lookup b name]
            exact hu
          by_cases huw : u = w
          · cases hacc : assocLookup acc.1 name with
            | some t =>
                by_cases htv : t = v
                · obtain ⟨p, q, hpq⟩ := iterAndSet_warn_emit (getBindingMap b).1
                    (acc.1, acc.2 ++ (getBindingMap b).2) name t u hacc
                    (mem_of_assocLookup hmap)
                    (by rw [huw, htv]; exact hne.symm)
                  exact ⟨p, q, gbmList_warn_mono rest _ (name, p, q) hpq⟩
                · refine gbmList_conflict_acc rest _ name t v ?_ hv2
                    (fun hc => htv hc.symm)
                  exact iterAndSet_lookup_keep _ _ name t hacc
            | none =>
                refine gbmList_conflict_acc rest _ name u v ?_ hv2
                  (by rw [huw]; exact hne)
                rw [iterAndSet_lookup (getBindingMap b).1
                  (acc.1, acc.2 ++ (getBindingMap b).2) name, hacc]
                exact hmap
          · obtain ⟨p, q, hpq⟩ := gbm_conflict b name w u hw1 (mem_of_assocLookup hu)
              (fun hc => huw hc.symm)
            exact hmerge p q hpq
        · exact gbmList_conflict_in rest _ name v w hv2 hw2 hne
end

/-- C6: flattening a scope (own bindings plus all transitively inherited
ones) is total — `_getBindingMap` never throws, it only warns — and (a) the
value bound to each name in the flattened map is the *first-seen* one in the
own-then-inherited depth-first traversal (so own bindings take precedence
over inherited ones), and (b) whenever two bindings reachable from the
scope share a name with non-identical values, a conflict warning naming
that binding is emitted. -/
theorem claim_C6_confirmed (b : BindingsT) (name : String) :
    (assocLookup (getBindingMap b).1 name = assocLookup (preorder b) name) ∧
    (∀ v w, (name, v) ∈ preorder b → (name, w) ∈ preorder b → v ≠ w →
        ∃ p q, (name, p, q) ∈ (getBindingMap b).2) :=
  ⟨gbm_lookup b name, fun v w hv hw hne => gbm_conflict b name v w hv hw hne⟩

/-- C6 witness: a scope inheriting two scopes that bind `"x"` to `1` and `2`
(the spec's conflict scenario): the flattened map resolves `"x"` to the
first-registered value `1`, and a conflict warning for `"x"` is logged. -/
theorem claim_C6_witness :
    assocLookup (getBindingMap (.mk [] [.mk [("x", 1)] [], .mk [("x", 2)] []])).1 "x" =
      some 1 ∧
    (∃ p q, ("x", p, q) ∈ (getBindingMap (.mk [] [.mk [("x", 1)] [], .mk [("x", 2)] []])).2) := by
  have h := claim_C6_confirmed (.mk [] [.mk [("x", 1)] [], .mk [("x", 2)] []]) "x"
  constructor
  · rw [h.1]
    simp [preorder, preorderList, assocLookup]
  · exact h.2 1 2 (by simp [preorder, preorderList]) (by simp [preorder, preorderList])
      (by decide)

/-! ## Claim C1: dependency-resolution policy of the reactive binders

Four code sites evaluate an expression inside a capture window and decide
between a precise per-property subscription and a fallback: the text-node
`replace` init loop (part_000 405-433), the attribute-entry loop (486-534),
`Manager._onPropertyChange` (741-782), and the `p:bind` handler
(1014-1029).  Each is transcribed below as a decision function over the
captured stack, the expression's result, and the live property table
`live` (so that `live obj key` is the current value of `obj[key]`). -/

/-- Outcome of establishing one reactive binding: a per-property listener on
`(obj, key)`, a recompute closure on the shared fixed-rate polling loop, or
abandonment (an error is logged and nothing is registered). -/
inductive BindOutcome where
  | precise (obj : Nat) (key : PropKey)
  | polled
  | abandoned
deriving DecidableEq, Repr

/-- The shared validity test
`stack.length > 0 && result === stack_bottom[0][stack_bottom[1]]`, where
`stack_bottom` is the stack's *last* entry. -/
def stackIsValid (live : Nat → PropKey → JSVal) (stack : List (Nat × PropKey))
    (result : JSVal) : Bool :=
  match stack.getLast? with
  | none => false
  | some bot => live bot.1 bot.2 == result

/-- Transcription of one attribute-entry binding decision: a valid stack
registers a per-property callback on the stack's last entry, otherwise the
recompute closure is pushed onto `_onIntervalCallbacks` (one polling entry
per attribute entry). -/
def attrEntryInit (live : Nat → PropKey → JSVal) (stack : List (Nat × PropKey))
    (firstValue : JSVal) : BindOutcome :=
  match stack.getLast? with
  | some bot => if live bot.1 bot.2 == firstValue then .precise bot.1 bot.2 else .polled
  | none => .polled

/-- Transcription of `Manager._onPropertyChange`: a valid stack registers
the callback on `(unmanaged_obj, property)` (which, for the single read
`managed_obj[property]` performed here, is also the stack's last entry);
otherwise a polling closure is pushed onto `_onIntervalCallbacks`. -/
def onPropertyChangeInit (live : Nat → PropKey → JSVal) (unmanagedObj : Nat)
    (property : PropKey) (stack : List (Nat × PropKey)) (currentValue : JSVal) :
    BindOutcome :=
  match stack.getLast? with
  | some bot =>
      if live bot.1 bot.2 == currentValue then .precise unmanagedObj property else .polled
  | none => .polled

/-- Transcription of the `p:bind` decision: a valid stack registers on the
stack's last entry; otherwise `console.error("no eval stack...")` runs and
the handler `break`s — no listener and no polling entry is registered. -/
def pBindInit (live : Nat → PropKey → JSVal) (stack : List (Nat × PropKey))
    (initialValue : JSVal) : BindOutcome :=
  match stack.getLast? with
  | some bot => if live bot.1 bot.2 == initialValue then .precise bot.1 bot.2 else .abandoned
  | none => .abandoned

/-- Transcription of the text-node `replace(init = true)` per-entry loop:
`entryEvals` pairs each entry's captured stack with its evaluated value; a
valid entry appends a precise registration on its stack's last entry, an
invalid one sets `require_timedIntervalReplacement`.  The accumulated pair
is (precise registrations in order, flag). -/
def textTemplateInitGo (live : Nat → PropKey → JSVal) :
    List (List (Nat × PropKey) × JSVal) → List (Nat × PropKey) × Bool →
    List (Nat × PropKey) × Bool
  | [], acc => acc
  | ev :: rest, acc =>
      match ev.1.getLast? with
      | some bot =>
          if live bot.1 bot.2 == ev.2 then
            textTemplateInitGo live rest (acc.1 ++ [bot], acc.2)
          else textTemplateInitGo live rest (acc.1, true)
      | none => textTemplateInitGo live rest (acc.1, true)

/-- After the loop, a single polling callback for the whole template is
registered exactly when the flag was set. -/
def textTemplateInit (live : Nat → PropKey → JSVal)
    (entryEvals : List (List (Nat × PropKey) × JSVal)) :
    List (Nat × PropKey) × Bool :=
  textTemplateInitGo live entryEvals ([], false)

theorem textTemplateInitGo_spec (live : Nat → PropKey → JSVal)
    (l : List (List (Nat × PropKey) × JSVal)) :
    ∀ acc, textTemplateInitGo live l acc =
      (acc.1 ++ l.filterMap (fun ev =>
          match ev.1.getLast? with
          | some bot => if live bot.1 bot.2 == ev.2 then some bot else none
          | none => none),
       acc.2 || l.any (fun ev => !(stackIsValid live ev.1 ev.2))) := by
  induction l with
  | nil => intro acc; simp [textTemplateInitGo]
  | cons ev rest ih =>
      intro acc
      cases hlast : ev.1.getLast? with
      | some bot =>
          by_cases hbeq : (live bot.1 bot.2 == ev.2) = true
          · have heqp : live bot.1 bot.2 = ev.2 := by simpa using hbeq
            simp only [textTemplateInitGo, hlast, hbeq, if_true, if_pos rfl]
            rw [ih]
            simp [List.filterMap_cons, hlast, heqp, stackIsValid, hbeq, List.any_cons]
          · have hbeq2 : (live bot.1 bot.2 == ev.2) = false := by
              simpa using hbeq
            have hnep : ¬ live bot.1 bot.2 = ev.2 := by simpa using hbeq2
            simp only [textTemplateInitGo, hlast, hbeq2, Bool.false_eq_true, if_false]
            rw [ih]
            simp [List.filterMap_cons, hlast, hnep, stackIsValid, hbeq2, List.any_cons]
      | none =>
          simp only [textTemplateInitGo, hlast]
          rw [ih]
          simp [List.filterMap_cons, hlast, stackIsValid, List.any_cons]

/-- C1 counterexample: for the `p:bind` binder with an empty capture
sequence (the claim's "otherwise" branch), the code logs an error and
abandons the binding — it does *not* register the recompute closure on the
polling loop, refuting the claim's universal fallback for the listed
binders.  (The attribute binder at the same input does poll.) -/
theorem claim_C1_counterexample :
    pBindInit (fun _ _ => JSVal.undef) [] JSVal.undef = BindOutcome.abandoned ∧
    pBindInit (fun _ _ => JSVal.undef) [] JSVal.undef ≠ BindOutcome.polled ∧
    attrEntryInit (fun _ _ => JSVal.undef) [] JSVal.undef = BindOutcome.polled :=
  ⟨rfl, by decide, rfl⟩

/-- C1 amended: after evaluating the bound expression inside a recording
window, (a) when the capture sequence is non-empty and the live value of its
last entry `(obj, key)` strictly equals the expression's result, the
attribute and `p:bind` binders subscribe a listener on exactly `(obj, key)`,
and the property-change subscription subscribes on the unmanaged object and
the requested property (which coincides with the last capture of its single
read); (b) otherwise (empty sequence, or mismatch) the attribute and
property-change binders register the recompute closure on the shared polling
loop, while `p:bind` logs an error and abandons the binding (registering
nothing); (c) the text-node binder registers one precise listener per valid
entry, on that entry's last capture, and one single polling registration for
the whole template exactly when at least one entry is invalid. -/
theorem claim_C1_amended (live : Nat → PropKey → JSVal)
    (stack : List (Nat × PropKey)) (v : JSVal) (unmanagedObj : Nat)
    (property : PropKey) (entryEvals : List (List (Nat × PropKey) × JSVal)) :
    (∀ bot, stack.getLast? = some bot → live bot.1 bot.2 = v →
        attrEntryInit live stack v = .precise bot.1 bot.2 ∧
        pBindInit live stack v = .precise bot.1 bot.2 ∧
        onPropertyChangeInit live unmanagedObj property stack v =
          .precise unmanagedObj property) ∧
    ((stack = [] ∨ ∃ bot, stack.getLast? = some bot ∧ live bot.1 bot.2 ≠ v) →
        attrEntryInit live stack v = .polled ∧
        pBindInit live stack v = .abandoned ∧
        onPropertyChangeInit live unmanagedObj property stack v = .polled) ∧
    ((textTemplateInit live entryEvals).1 =
        entryEvals.filterMap (fun ev =>
          match ev.1.getLast? with
          | some bot => if live bot.1 bot.2 == ev.2 then some bot else none
          | none => none) ∧
      (textTemplateInit live entryEvals).2 =
        entryEvals.any (fun ev => !(stackIsValid live ev.1 ev.2))) := by
  refine ⟨?_, ?_, ?_⟩
  · intro bot hlast heq
    refine ⟨?_, ?_, ?_⟩ <;>
      simp [attrEntryInit, pBindInit, onPropertyChangeInit, hlast, heq]
  · intro h
    rcases h with rfl | ⟨bot, hlast, hne⟩
    · exact ⟨rfl, rfl, rfl⟩
    · have hbeq : (live bot.1 bot.2 == v) = false := by
        simpa using hne
      refine ⟨?_, ?_, ?_⟩ <;>
        simp [attrEntryInit, pBindInit, onPropertyChangeInit, hlast, hbeq]
  · rw [textTemplateInit, textTemplateInitGo_spec]
    simp

/-- C1 witness: the amended decision rules evaluated at concrete inputs —
a valid single-entry capture yields precise subscriptions for all three
per-expression binders, and an empty capture yields polling for the
attribute binder and abandonment for `p:bind`. -/
theorem claim_C1_witness :
    attrEntryInit (fun _ _ => JSVal.num 7) [(5, PropKey.str "k")] (JSVal.num 7) =
      BindOutcome.precise 5 (PropKey.str "k") ∧
    pBindInit (fun _ _ => JSVal.num 7) [(5, PropKey.str "k")] (JSVal.num 7) =
      BindOutcome.precise 5 (PropKey.str "k") ∧
    onPropertyChangeInit (fun _ _ => JSVal.num 7) 9 (PropKey.str "p")
        [(9, PropKey.str "p")] (JSVal.num 7) = BindOutcome.precise 9 (PropKey.str "p") ∧
    attrEntryInit (fun _ _ => JSVal.num 7) [] (JSVal.num 7) = BindOutcome.polled ∧
    pBindInit (fun _ _ => JSVal.num 7) [] (JSVal.num 7) = BindOutcome.abandoned := by
  have h1 := (claim_C1_amended (fun _ _ => JSVal.num 7) [(5, PropKey.str "k")]
      (JSVal.num 7) 9 (PropKey.str "p") []).1 (5, PropKey.str "k") rfl rfl
  have h2 := (claim_C1_amended (fun _ _ => JSVal.num 7) [(9, PropKey.str "p")]
      (JSVal.num 7) 9 (PropKey.str "p") []).1 (9, PropKey.str "p") rfl rfl
  have h3 := (claim_C1_amended (fun _ _ => JSVal.num 7) [] (JSVal.num 7) 9
      (PropKey.str "p") []).2.1 (Or.inl rfl)
  exact ⟨h1.1, h1.2.1, h2.2.2, h3.1, h3.2.1⟩

end WebPJS
